import Mathlib

/-!
Shallow embedding of the reactive-stream core in `src/main.cpp` (minlux/rxobs).

The C++ `Observable<V,E>` class holds a member-function-pointer
`subscribeHandler` (one of `subscribeHandler_of`, `subscribeHandler_from`,
`subscribeHandler_throwError`, `subscribeHandler_map`, or null once the
emission has run), a `values` pointer with `valuesCount`, an `err` pointer,
and for map-mode a pointer to a `MappingObserver` (the stage) plus a pointer
to the upstream observable.  `subscribe` dispatches through the handler and
delivers all notifications synchronously; the base handlers null the handler
afterwards.  `unsubscribe` clears `values`, `valuesCount` and `err` but not
the handler.

We embed an observable as a tree: a `base` node carries the fields of the
C++ object that the three base handlers touch (the fields a map-mode object
never sets - `values`, `valuesCount`, `err` - stay at their constructor
defaults in C++, so the `mapped` node carries only the stage, its internal
state and the upstream reference).  Observer calls are recorded as a trace
of events; a null-pointer dereference makes `subscribeO` return `none`.
-/

namespace Rxobs

/-- Notification delivered to an `Observer<V,E>`: one of its three methods. -/
inductive Ev (V E : Type) where
  | next (v : V)
  | error (e : E)
  | complete
deriving DecidableEq

/-- A call made on a mapping stage (a `MappingObserver`): which of its three
methods was invoked, and with which argument. -/
inductive StageCall (V E : Type) where
  | nx (v : V)
  | er (e : E)
  | cp
deriving DecidableEq

/-- Behaviour of a concrete `MappingObserver` subclass: each method reads the
stage's internal state `S`, returns the updated state and the list of calls
it makes on the downstream observer (`this->observer` in the C++ code). -/
structure MappingStage (V E S : Type) where
  onNext : S → V → S × List (Ev V E)
  onError : S → E → S × List (Ev V E)
  onComplete : S → S × List (Ev V E)

/-- Which base subscribe handler the member-function pointer designates. -/
inductive BaseHandler where
  | hOf
  | hFrom
  | hThrowError
deriving DecidableEq

/-- An `Observable<V,E>` object.  `base` carries `subscribeHandler` (none =
null, i.e. completed), the `values` pointer (modelled as an optional list,
none = null), `valuesCount`, and the `err` pointer.  `mapped` carries the
(nullable) handler slot, the stage with its internal state, and the
upstream observable (`mappingObservable`). -/
inductive ObsCore (V E S : Type) where
  | base (handler : Option BaseHandler) (values : Option (List V))
      (valuesCount : Nat) (err : Option E)
  | mapped (handler : Option Unit) (stage : MappingStage V E S)
      (stageState : S) (upstream : ObsCore V E S)

/-- Dereference `values[i]`: null pointer or out-of-range index is a fault. -/
def derefAt {V : Type} (vs : Option (List V)) (i : Nat) : Option V :=
  vs.bind (fun l => l.get? i)

/-- The loop of `subscribeHandler_from`: read `values[i] .. values[i+c-1]`
in order, faulting on a null pointer or out-of-range access. -/
def readFrom {V : Type} (vs : Option (List V)) : Nat → Nat → Option (List V)
  | _, 0 => some []
  | i, Nat.succ c =>
      match derefAt vs i with
      | none => none
      | some v =>
          match readFrom vs (i + 1) c with
          | none => none
          | some rest => some (v :: rest)

/-- Result of driving a list of upstream events through a mapping stage:
final stage state, events emitted downstream, and the log of stage calls. -/
structure StageOut (V E S : Type) where
  st : S
  outs : List (Ev V E)
  calls : List (StageCall V E)

/-- Feed a list of events (the calls the upstream makes on the stage, which
is itself an `Observer`) through the stage, in order. -/
def stageRun {V E S : Type} (m : MappingStage V E S) (s : S) :
    List (Ev V E) → StageOut V E S
  | [] => ⟨s, [], []⟩
  | Ev.next v :: rest =>
      let p := m.onNext s v
      let r := stageRun m p.1 rest
      ⟨r.st, p.2 ++ r.outs, StageCall.nx v :: r.calls⟩
  | Ev.error e :: rest =>
      let p := m.onError s e
      let r := stageRun m p.1 rest
      ⟨r.st, p.2 ++ r.outs, StageCall.er e :: r.calls⟩
  | Ev.complete :: rest =>
      let p := m.onComplete s
      let r := stageRun m p.1 rest
      ⟨r.st, p.2 ++ r.outs, StageCall.cp :: r.calls⟩

/-- Result of a successful `subscribe` call: the calls made on the observer
(in order), the log of calls made on mapping stages, the position of the
returned `Subscription` object on the upstream chain (0 = the receiver
itself, as in `return this`), and the updated observable state. -/
structure SubResult (V E S : Type) where
  trace : List (Ev V E)
  calls : List (StageCall V E)
  retDepth : Nat
  post : ObsCore V E S

/-- `Observable::subscribe`.  If the handler is null the call is a no-op
returning `this`; otherwise it dispatches to the handler set at
construction.  The base handlers deliver their notifications, then null the
handler; `subscribeHandler_map` hands the stage to the upstream observable
and returns the upstream's subscription.  `none` models a null-pointer
dereference (`*values`, `values[i]` or `*err` with a null pointer). -/
def subscribeO {V E S : Type} : ObsCore V E S → Option (SubResult V E S)
  | ObsCore.base none vs c e => some ⟨[], [], 0, ObsCore.base none vs c e⟩
  | ObsCore.base (some BaseHandler.hOf) vs c e =>
      match derefAt vs 0 with
      | none => none
      | some v =>
          some ⟨[Ev.next v, Ev.complete], [], 0, ObsCore.base none vs c e⟩
  | ObsCore.base (some BaseHandler.hFrom) vs c e =>
      match readFrom vs 0 c with
      | none => none
      | some ns =>
          some ⟨ns.map Ev.next ++ [Ev.complete], [], 0, ObsCore.base none vs c e⟩
  | ObsCore.base (some BaseHandler.hThrowError) vs c e =>
      match e with
      | none => none
      | some ev =>
          some ⟨[Ev.error ev, Ev.complete], [], 0, ObsCore.base (none : Option BaseHandler) vs c (some ev)⟩
  | ObsCore.mapped none stage st up => some ⟨[], [], 0, ObsCore.mapped none stage st up⟩
  | ObsCore.mapped (some _) stage st up =>
      match subscribeO up with
      | none => none
      | some r =>
          let so := stageRun stage st r.trace
          some ⟨so.outs, r.calls ++ so.calls, r.retDepth + 1,
                ObsCore.mapped (some ()) stage so.st r.post⟩

/-- `Observable::unsubscribe`: clears `values`, `valuesCount` and `err`;
leaves the subscribe handler (and, for map-mode, the stage and upstream
pointers) untouched.  A map-mode object's `values`/`valuesCount`/`err`
fields are null already, so clearing them there is the identity. -/
def unsubscribeO {V E S : Type} : ObsCore V E S → ObsCore V E S
  | ObsCore.base h _ _ _ => ObsCore.base h none 0 none
  | ObsCore.mapped h stage st up => ObsCore.mapped h stage st up

/-- `Observable::of(value)`: handler `subscribeHandler_of`, `values` points
at the single value (`valuesCount` is left at 0 - the assignment is
commented out in the source). -/
def ofO {V E S : Type} (v : V) : ObsCore V E S :=
  ObsCore.base (some BaseHandler.hOf) (some [v]) 0 none

/-- `Observable::from(values, count)`: handler `subscribeHandler_from`,
`values` points at the array, `valuesCount` is its length. -/
def fromO {V E S : Type} (s : List V) : ObsCore V E S :=
  ObsCore.base (some BaseHandler.hFrom) (some s) s.length none

/-- `Observable::throwError(err)`: handler `subscribeHandler_throwError`,
`err` points at the error value. -/
def throwErrorO {V E S : Type} (e : E) : ObsCore V E S :=
  ObsCore.base (some BaseHandler.hThrowError) none 0 (some e)

/-- `Observable::map(mappingObserver)`: a fresh observable with handler
`subscribeHandler_map`, referencing the stage (with its current internal
state) and `this` as upstream. -/
def mapO {V E S : Type} (up : ObsCore V E S) (m : MappingStage V E S) (st : S) :
    ObsCore V E S :=
  ObsCore.mapped (some ()) m st up

/-- The completed flag of the spec's data model: a base observable is
completed when its handler has been nulled; a mapped observable is
completed when its own handler slot is null or its upstream is completed. -/
def completedB {V E S : Type} : ObsCore V E S → Bool
  | ObsCore.base h _ _ _ => h.isNone
  | ObsCore.mapped h _ _ up => h.isNone || completedB up

/-- The object `d` steps up the upstream chain from `o` (0 = `o` itself);
this identifies the object a returned `Subscription` pointer designates. -/
def objAt {V E S : Type} : ObsCore V E S → Nat → Option (ObsCore V E S)
  | o, 0 => some o
  | ObsCore.mapped _ _ _ up, Nat.succ d => objAt up d
  | ObsCore.base _ _ _ _, Nat.succ _ => none

/-- The object's stored value/sequence/error references and count are null. -/
def clearedFields {V E S : Type} : ObsCore V E S → Prop
  | ObsCore.base _ vs c e => vs = none ∧ c = 0 ∧ e = none
  | ObsCore.mapped _ _ _ _ => True

/-- Every element of the list is a `next` notification. -/
def NextsOnly {V E : Type} (l : List (Ev V E)) : Prop :=
  ∀ x ∈ l, ∃ v, x = Ev.next v

/-- Well-formed notification trace: empty, or some `next`s followed by a
single `complete`, or some `next`s followed by `error` then `complete`. -/
def WFTrace {V E : Type} (tr : List (Ev V E)) : Prop :=
  tr = [] ∨ ∃ ns, NextsOnly ns ∧
    (tr = ns ++ [Ev.complete] ∨ ∃ e, tr = ns ++ [Ev.error e, Ev.complete])

/-- Terminal signals (`error` or `complete`) in a trace. -/
def isTerminal {V E : Type} : Ev V E → Bool
  | Ev.next _ => false
  | Ev.error _ => true
  | Ev.complete => true

/-- Number of terminal signals in a trace. -/
def terminalCount {V E : Type} (tr : List (Ev V E)) : Nat :=
  (tr.filter isTerminal).length

/-- The stage contract of the spec (section 4.3): `onNext` makes only `next`
calls downstream, `onError` forwards the error unchanged, `onComplete`
forwards completion unchanged. -/
structure GoodStage {V E S : Type} (m : MappingStage V E S) : Prop where
  nextOnly : ∀ s v x, x ∈ (m.onNext s v).2 → ∃ w, x = Ev.next w
  errorFwd : ∀ s e, (m.onError s e).2 = [Ev.error e]
  completeFwd : ∀ s, (m.onComplete s).2 = [Ev.complete]

/-- Every stage reachable in the observable obeys the stage contract. -/
def GoodObs {V E S : Type} : ObsCore V E S → Prop
  | ObsCore.base _ _ _ _ => True
  | ObsCore.mapped _ m _ up => GoodStage m ∧ GoodObs up

/-- The demo `IntMapObserver`: internal state is the `forward` flag,
initially true; `next` forwards the doubled value when the flag is set and
toggles the flag; `error` and `complete` are forwarded unchanged. -/
def intMapStage : MappingStage Int String Bool where
  onNext := fun s v => (!s, if s then [Ev.next (2 * v)] else [])
  onError := fun s e => (s, [Ev.error e])
  onComplete := fun s => (s, [Ev.complete])

/-- The demo pipeline: `from({1,-2,3,-4,5,-6,7})` mapped through a fresh
`IntMapObserver`. -/
def demoMapped : ObsCore Int String Bool :=
  mapO (fromO [1, -2, 3, -4, 5, -6, 7]) intMapStage true

/-! ## Helper lemmas -/

theorem get?_len_append {V : Type} (pre : List V) (v : V) (t : List V) :
    (pre ++ v :: t).get? pre.length = some v := by
  induction pre with
  | nil => rfl
  | cons a pre ih => exact ih

theorem readFrom_mid {V : Type} (l : List V) :
    ∀ pre : List V, readFrom (some (pre ++ l)) pre.length l.length = some l := by
  induction l with
  | nil => intro pre; rfl
  | cons v t ih =>
      intro pre
      have hd : derefAt (some (pre ++ v :: t)) pre.length = some v :=
        get?_len_append pre v t
      have hrec : readFrom (some (pre ++ v :: t)) (pre.length + 1) t.length = some t := by
        have := ih (pre ++ [v])
        simpa [List.append_assoc] using this
      simp [readFrom, hd, hrec]

theorem readFrom_full {V : Type} (l : List V) :
    readFrom (some l) 0 l.length = some l := by
  simpa using readFrom_mid l []

theorem stageRun_nil {V E S : Type} (m : MappingStage V E S) (s : S) :
    stageRun m s [] = ⟨s, [], []⟩ := rfl

/-- Unfolding of `subscribe` on a live map-mode observable when the
upstream subscribe succeeds. -/
theorem subscribeO_mapped_some {V E S : Type} (stage : MappingStage V E S)
    (st : S) (up : ObsCore V E S) (ru : SubResult V E S)
    (h : subscribeO up = some ru) :
    subscribeO (ObsCore.mapped (some ()) stage st up)
      = some ⟨(stageRun stage st ru.trace).outs,
              ru.calls ++ (stageRun stage st ru.trace).calls,
              ru.retDepth + 1,
              ObsCore.mapped (some ()) stage (stageRun stage st ru.trace).st
                ru.post⟩ := by
  simp only [subscribeO, h]

/-- Driving a block of `next` events through a contract-obeying stage emits
only `next` events, then continues with the tail from some stage state. -/
theorem stageRun_nexts {V E S : Type} (m : MappingStage V E S)
    (hm : GoodStage m) (tail : List (Ev V E)) :
    ∀ ns, NextsOnly ns → ∀ s, ∃ ns2 s2,
      (stageRun m s (ns ++ tail)).outs = ns2 ++ (stageRun m s2 tail).outs ∧
      NextsOnly ns2 := by
  intro ns
  induction ns with
  | nil =>
      intro _ s
      exact ⟨[], s, by simp, by intro x hx; simp at hx⟩
  | cons x ns ih =>
      intro hno s
      obtain ⟨v, hx⟩ := hno x (by simp)
      subst hx
      have hno' : NextsOnly ns := by
        intro y hy; exact hno y (by simp [hy])
      obtain ⟨ns2, s2, heq, hns2⟩ := ih hno' (m.onNext s v).1
      refine ⟨(m.onNext s v).2 ++ ns2, s2, ?_, ?_⟩
      · simp [stageRun, heq, List.append_assoc]
      · intro y hy
        rcases List.mem_append.mp hy with h1 | h2
        · exact hm.nextOnly s v y h1
        · exact hns2 y h2

/-- A contract-obeying stage turns a well-formed trace into a well-formed
trace. -/
theorem stageRun_wf {V E S : Type} (m : MappingStage V E S)
    (hm : GoodStage m) (tr : List (Ev V E)) (htr : WFTrace tr) (s : S) :
    WFTrace (stageRun m s tr).outs := by
  rcases htr with h0 | ⟨ns, hns, hsh⟩
  · subst h0; exact Or.inl rfl
  · rcases hsh with h1 | ⟨e, h2⟩
    · subst h1
      obtain ⟨ns2, s2, heq, hns2⟩ := stageRun_nexts m hm [Ev.complete] ns hns s
      refine Or.inr ⟨ns2, hns2, Or.inl ?_⟩
      rw [heq]
      have : (stageRun m s2 [Ev.complete]).outs = [Ev.complete] := by
        simp [stageRun, hm.completeFwd]
      rw [this]
    · subst h2
      obtain ⟨ns2, s2, heq, hns2⟩ :=
        stageRun_nexts m hm [Ev.error e, Ev.complete] ns hns s
      refine Or.inr ⟨ns2, hns2, Or.inr ⟨e, ?_⟩⟩
      rw [heq]
      have : (stageRun m s2 [Ev.error e, Ev.complete]).outs
          = [Ev.error e, Ev.complete] := by
        simp [stageRun, hm.errorFwd, hm.completeFwd]
      rw [this]

/-- After a successful subscribe, a second subscribe on the resulting state
succeeds and makes no observer calls and no stage calls. -/
theorem inert_after {V E S : Type} (o : ObsCore V E S) :
    ∀ r : SubResult V E S, subscribeO o = some r →
      ∃ r2, subscribeO r.post = some r2 ∧ r2.trace = [] ∧ r2.calls = [] := by
  induction o with
  | base h vs c e =>
      intro r hr
      rcases h with _ | bh
      · simp only [subscribeO, Option.some.injEq] at hr
        subst hr
        exact ⟨_, rfl, rfl, rfl⟩
      · cases bh with
        | hOf =>
            simp only [subscribeO] at hr
            cases hd : derefAt vs 0 with
            | none => rw [hd] at hr; cases hr
            | some v =>
                rw [hd] at hr
                simp only [Option.some.injEq] at hr
                subst hr
                exact ⟨_, rfl, rfl, rfl⟩
        | hFrom =>
            simp only [subscribeO] at hr
            cases hd : readFrom vs 0 c with
            | none => rw [hd] at hr; cases hr
            | some ns =>
                rw [hd] at hr
                simp only [Option.some.injEq] at hr
                subst hr
                exact ⟨_, rfl, rfl, rfl⟩
        | hThrowError =>
            simp only [subscribeO] at hr
            cases e with
            | none => cases hr
            | some ev =>
                simp only [Option.some.injEq] at hr
                subst hr
                exact ⟨_, rfl, rfl, rfl⟩
  | mapped h stage st up ih =>
      intro r hr
      rcases h with _ | u
      · simp only [subscribeO, Option.some.injEq] at hr
        subst hr
        exact ⟨_, rfl, rfl, rfl⟩
      · simp only [subscribeO] at hr
        cases hu : subscribeO up with
        | none => rw [hu] at hr; cases hr
        | some ru =>
            rw [hu] at hr
            simp only [Option.some.injEq] at hr
            subst hr
            obtain ⟨ru2, h2, ht2, hc2⟩ := ih ru hu
            refine ⟨_, subscribeO_mapped_some stage _ ru.post ru2 h2, ?_, ?_⟩
            · simp [ht2, stageRun_nil]
            · simp [ht2, hc2, stageRun_nil]

/-- An observable whose completed flag is set subscribes as a no-op. -/
theorem inert_completed {V E S : Type} (o : ObsCore V E S) :
    completedB o = true →
      ∃ r, subscribeO o = some r ∧ r.trace = [] ∧ r.calls = [] := by
  induction o with
  | base h vs c e =>
      intro hc
      have hn : h = none := by
        simpa [completedB, Option.isNone_iff_eq_none] using hc
      subst hn
      exact ⟨_, rfl, rfl, rfl⟩
  | mapped h stage st up ih =>
      intro hc
      rcases h with _ | u
      · exact ⟨_, rfl, rfl, rfl⟩
      · have hup : completedB up = true := by
          simpa [completedB] using hc
        obtain ⟨ru, hru, ht, hcl⟩ := ih hup
        refine ⟨_, subscribeO_mapped_some stage st up ru hru, ?_, ?_⟩
        · simp [ht, stageRun_nil]
        · simp [ht, hcl, stageRun_nil]

/-- The subscription returned by `subscribe` designates an object on the
receiver's upstream chain whose completed flag agrees with the receiver's,
both before and after the delivery. -/
theorem retChain {V E S : Type} (o : ObsCore V E S) :
    ∀ r : SubResult V E S, subscribeO o = some r →
      (∃ u, objAt o r.retDepth = some u ∧ completedB o = completedB u) ∧
      (∃ u2, objAt r.post r.retDepth = some u2 ∧
        completedB r.post = completedB u2) := by
  induction o with
  | base h vs c e =>
      intro r hr
      rcases h with _ | bh
      · simp only [subscribeO, Option.some.injEq] at hr
        subst hr
        exact ⟨⟨_, rfl, rfl⟩, ⟨_, rfl, rfl⟩⟩
      · cases bh with
        | hOf =>
            simp only [subscribeO] at hr
            cases hd : derefAt vs 0 with
            | none => rw [hd] at hr; cases hr
            | some v =>
                rw [hd] at hr
                simp only [Option.some.injEq] at hr
                subst hr
                exact ⟨⟨_, rfl, rfl⟩, ⟨_, rfl, rfl⟩⟩
        | hFrom =>
            simp only [subscribeO] at hr
            cases hd : readFrom vs 0 c with
            | none => rw [hd] at hr; cases hr
            | some ns =>
                rw [hd] at hr
                simp only [Option.some.injEq] at hr
                subst hr
                exact ⟨⟨_, rfl, rfl⟩, ⟨_, rfl, rfl⟩⟩
        | hThrowError =>
            simp only [subscribeO] at hr
            cases e with
            | none => cases hr
            | some ev =>
                simp only [Option.some.injEq] at hr
                subst hr
                exact ⟨⟨_, rfl, rfl⟩, ⟨_, rfl, rfl⟩⟩
  | mapped h stage st up ih =>
      intro r hr
      rcases h with _ | u
      · simp only [subscribeO, Option.some.injEq] at hr
        subst hr
        exact ⟨⟨_, rfl, rfl⟩, ⟨_, rfl, rfl⟩⟩
      · simp only [subscribeO] at hr
        cases hu : subscribeO up with
        | none => rw [hu] at hr; cases hr
        | some ru =>
            rw [hu] at hr
            simp only [Option.some.injEq] at hr
            subst hr
            obtain ⟨⟨u1, hu1, hc1⟩, ⟨u2, hu2, hc2⟩⟩ := ih ru hu
            constructor
            · exact ⟨u1, by simpa [objAt] using hu1,
                by simp [completedB, hc1]⟩
            · exact ⟨u2, by simpa [objAt] using hu2,
                by simp [completedB, hc2]⟩

/-- With contract-obeying stages, every successful subscribe delivers a
well-formed trace. -/
theorem subscribe_wf {V E S : Type} (o : ObsCore V E S) (hg : GoodObs o) :
    ∀ r : SubResult V E S, subscribeO o = some r → WFTrace r.trace := by
  induction o with
  | base h vs c e =>
      intro r hr
      rcases h with _ | bh
      · simp only [subscribeO, Option.some.injEq] at hr
        subst hr
        exact Or.inl rfl
      · cases bh with
        | hOf =>
            simp only [subscribeO] at hr
            cases hd : derefAt vs 0 with
            | none => rw [hd] at hr; cases hr
            | some v =>
                rw [hd] at hr
                simp only [Option.some.injEq] at hr
                subst hr
                refine Or.inr ⟨[Ev.next v], ?_, Or.inl rfl⟩
                intro x hx
                simp at hx
                exact ⟨v, hx⟩
        | hFrom =>
            simp only [subscribeO] at hr
            cases hd : readFrom vs 0 c with
            | none => rw [hd] at hr; cases hr
            | some ns =>
                rw [hd] at hr
                simp only [Option.some.injEq] at hr
                subst hr
                refine Or.inr ⟨ns.map Ev.next, ?_, Or.inl rfl⟩
                intro x hx
                simp only [List.mem_map] at hx
                obtain ⟨v, _, hv⟩ := hx
                exact ⟨v, hv.symm⟩
        | hThrowError =>
            simp only [subscribeO] at hr
            cases e with
            | none => cases hr
            | some ev =>
                simp only [Option.some.injEq] at hr
                subst hr
                refine Or.inr ⟨[], ?_, Or.inr ⟨ev, rfl⟩⟩
                intro x hx
                simp at hx
  | mapped h stage st up ih =>
      intro r hr
      rcases h with _ | u
      · simp only [subscribeO, Option.some.injEq] at hr
        subst hr
        exact Or.inl rfl
      · obtain ⟨hstage, hup⟩ := hg
        simp only [subscribeO] at hr
        cases hu : subscribeO up with
        | none => rw [hu] at hr; cases hr
        | some ru =>
            rw [hu] at hr
            simp only [Option.some.injEq] at hr
            subst hr
            exact stageRun_wf stage hstage ru.trace (ih hup ru hu) st

/-- The demo stage obeys the stage contract. -/
theorem intMapStage_good : GoodStage intMapStage := by
  refine ⟨?_, ?_, ?_⟩
  · intro s v x hx
    cases s with
    | false => simp [intMapStage] at hx
    | true =>
        simp [intMapStage] at hx
        exact ⟨2 * v, hx⟩
  · intro s e; rfl
  · intro s; rfl

/-! ## Claim theorems -/

/-- C1: for every value `v`, subscribing a fresh `of(v)` observable calls
`next(v)` once, then `complete()` once, makes no further observer calls, no
stage calls, returns `this` as the subscription, and nulls the handler. -/
theorem of_subscribe_emits (V E S : Type) (v : V) :
    subscribeO (ofO v : ObsCore V E S)
      = some ⟨[Ev.next v, Ev.complete], [], 0,
              ObsCore.base none (some [v]) 0 none⟩ := rfl

/-- C2: for every sequence `s` (including the empty one), subscribing a
fresh `from(s)` observable calls `next` once per element of `s` in order,
then `complete()` once, returns `this`, and nulls the handler; for empty
`s` the trace is just `complete()`. -/
theorem from_subscribe_emits (V E S : Type) (s : List V) :
    subscribeO (fromO s : ObsCore V E S)
      = some ⟨s.map Ev.next ++ [Ev.complete], [], 0,
              ObsCore.base none (some s) s.length none⟩ := by
  simp [subscribeO, fromO, readFrom_full]

/-- C3: for every error value `e`, subscribing a fresh `throwError(e)`
observable calls `error(e)` once, then `complete()` once, makes no `next`
calls, returns `this`, and nulls the handler. -/
theorem throwError_subscribe_emits (V E S : Type) (e : E) :
    subscribeO (throwErrorO e : ObsCore V E S)
      = some ⟨[Ev.error e, Ev.complete], [], 0,
              ObsCore.base none none 0 (some e)⟩ := rfl

/-- C4: subscribing again after an emission has run to completion (the
state produced by any successful subscribe, in any of the four modes,
including a mapped observable over an exhausted upstream) succeeds, makes
zero observer calls and zero stage calls, and still returns a subscription;
likewise any observable whose completed flag is set subscribes as a
no-op. -/
theorem completed_resubscribe_silent :
    (∀ (V E S : Type) (o : ObsCore V E S) (r : SubResult V E S),
      subscribeO o = some r →
        ∃ r2, subscribeO r.post = some r2 ∧ r2.trace = [] ∧ r2.calls = []) ∧
    (∀ (V E S : Type) (o : ObsCore V E S), completedB o = true →
        ∃ r2, subscribeO o = some r2 ∧ r2.trace = [] ∧ r2.calls = []) :=
  ⟨fun _ _ _ o r hr => inert_after o r hr,
   fun _ _ _ o hc => inert_completed o hc⟩

/-- C4 witness: re-subscribing the state left by `of(1).subscribe` makes no
calls. -/
theorem completed_resubscribe_silent_check :
    ∃ r2, subscribeO (ObsCore.base none (some [(1 : Int)]) 0 none
        : ObsCore Int String Unit) = some r2 ∧ r2.trace = [] ∧ r2.calls = [] :=
  completed_resubscribe_silent.1 Int String Unit (ofO 1)
    ⟨[Ev.next 1, Ev.complete], [], 0, ObsCore.base none (some [1]) 0 none⟩ rfl

/-- C5 counterexample: the demo pipeline (`from({1,-2,3,-4,5,-6,7})` mapped
through the alternating doubling stage with the forward flag initially
true) delivers `next(2), next(6), next(10), next(14), complete()` - the
elements at indices 0, 2, 4, 6 doubled - not the claimed
`next(-4), next(-8), next(14), complete()`. -/
theorem map_demo_trace_cex :
    (subscribeO demoMapped).map SubResult.trace
      = some [Ev.next 2, Ev.next 6, Ev.next 10, Ev.next 14, Ev.complete] ∧
    (some [Ev.next 2, Ev.next 6, Ev.next 10, Ev.next 14, Ev.complete]
        : Option (List (Ev Int String)))
      ≠ some [Ev.next (-4), Ev.next (-8), Ev.next 14, Ev.complete] :=
  ⟨rfl, by decide⟩

/-- C5 (amended): subscribing the demo pipeline delivers exactly
`next(2), next(6), next(10), next(14)` then `complete()`: the forward flag
starts true, so indices 0, 2, 4, 6 are forwarded doubled and the odd
indices are skipped. -/
theorem map_demo_trace :
    (subscribeO demoMapped).map SubResult.trace
      = some [Ev.next 2, Ev.next 6, Ev.next 10, Ev.next 14, Ev.complete] := rfl

/-- C6: for every error value `e`, contract-obeying stage `m` and stage
state, subscribing `throwError(e).map(m)` delivers `error(e)` then
`complete()` to the observer, and the stage receives exactly an `onError`
call followed by an `onComplete` call - its `onNext` is never invoked. -/
theorem mapped_throwError_propagates (V E S : Type) (e : E)
    (m : MappingStage V E S) (st : S) (hm : GoodStage m) :
    subscribeO (mapO (throwErrorO e) m st)
      = some ⟨[Ev.error e, Ev.complete], [StageCall.er e, StageCall.cp], 1,
              ObsCore.mapped (some ()) m ((m.onComplete (m.onError st e).1).1)
                (ObsCore.base none none 0 (some e))⟩ := by
  simp [subscribeO, mapO, throwErrorO, stageRun, hm.errorFwd, hm.completeFwd]

/-- C6 witness: with the demo stage and error "boom". -/
theorem mapped_throwError_propagates_check :
    subscribeO (mapO (throwErrorO "boom") intMapStage true)
      = some ⟨[Ev.error "boom", Ev.complete],
              [StageCall.er "boom", StageCall.cp], 1,
              ObsCore.mapped (some ()) intMapStage true
                (ObsCore.base none none 0 (some "boom"))⟩ :=
  mapped_throwError_propagates Int String Bool "boom" intMapStage true
    intMapStage_good

/-- C7 counterexample: `throwError("boom")` delivers two terminal signals
(`error` then `complete`) in one subscription, so the trace does not
contain at most one terminal signal. -/
theorem terminal_pair_cex :
    (subscribeO (throwErrorO "boom" : ObsCore Int String Unit)).map
        (fun r => terminalCount r.trace) = some 2 ∧ ¬ (2 ≤ 1) :=
  ⟨rfl, by decide⟩

/-- C7 (amended): for every observable whose stages obey the stage
contract, a successful subscribe delivers a well-formed trace: either
empty, or `next`s followed by a single terminal sequence - `complete`
alone, or `error` immediately followed by `complete` - so no `next` ever
follows a terminal signal and at most one `error`/`complete` pair
occurs. -/
theorem subscribe_trace_wellformed (V E S : Type) (o : ObsCore V E S)
    (hg : GoodObs o) (r : SubResult V E S) (hr : subscribeO o = some r) :
    WFTrace r.trace :=
  subscribe_wf o hg r hr

/-- C7 witness: the trace of `of(5)` is well-formed. -/
theorem subscribe_trace_wellformed_check :
    WFTrace ([Ev.next (5 : Int), Ev.complete] : List (Ev Int String)) :=
  subscribe_trace_wellformed Int String Unit (ofO 5) trivial
    ⟨[Ev.next 5, Ev.complete], [], 0, ObsCore.base none (some [5]) 0 none⟩ rfl

/-- C8: every successful subscribe returns a subscription designating an
object on the receiver's upstream chain (position 0, i.e. the receiver
itself, for the three base modes - see C1-C3 - and the upstream's
subscription for map mode) whose completed flag agrees with the
receiver's both before and after the delivery: the handle shares the
receiver's lifecycle. -/
theorem subscription_lifecycle (V E S : Type) (o : ObsCore V E S)
    (r : SubResult V E S) (hr : subscribeO o = some r) :
    (∃ u, objAt o r.retDepth = some u ∧ completedB o = completedB u) ∧
    (∃ u2, objAt r.post r.retDepth = some u2 ∧
      completedB r.post = completedB u2) :=
  retChain o r hr

/-- C8 witness: for the demo pipeline the subscription is the upstream
`from` observable, one step up the chain, with matching completed flag. -/
theorem subscription_lifecycle_check :
    (∃ u, objAt demoMapped 1 = some u ∧
      completedB demoMapped = completedB u) ∧
    (∃ u2, objAt (ObsCore.mapped (some ()) intMapStage false
        (ObsCore.base none (some [1, -2, 3, -4, 5, -6, 7]) 7 none)) 1
          = some u2 ∧
      completedB (ObsCore.mapped (some ()) intMapStage false
        (ObsCore.base none (some [1, -2, 3, -4, 5, -6, 7]) 7 none))
          = completedB u2) :=
  subscription_lifecycle Int String Bool demoMapped
    ⟨[Ev.next 2, Ev.next 6, Ev.next 10, Ev.next 14, Ev.complete],
     [StageCall.nx 1, StageCall.nx (-2), StageCall.nx 3, StageCall.nx (-4),
      StageCall.nx 5, StageCall.nx (-6), StageCall.nx 7, StageCall.cp], 1,
     ObsCore.mapped (some ()) intMapStage false
       (ObsCore.base none (some [1, -2, 3, -4, 5, -6, 7]) 7 none)⟩ rfl

/-- C9: `unsubscribe` clears the stored value/sequence/error references and
the count, it is idempotent (so calling it any number of times, in any
state - before any subscription or after completion - has no effect beyond
the first call, and being a total function it never faults), and after it
a subscribe of a base-mode observable can redeliver no stored value or
error: any successful trace is empty or a bare `complete`. -/
theorem unsubscribe_clears_idem :
    (∀ (V E S : Type) (o : ObsCore V E S), clearedFields (unsubscribeO o)) ∧
    (∀ (V E S : Type) (o : ObsCore V E S),
      unsubscribeO (unsubscribeO o) = unsubscribeO o) ∧
    (∀ (V E S : Type) (h : Option BaseHandler) (vs : Option (List V))
        (c : Nat) (e : Option E),
      (subscribeO (unsubscribeO (ObsCore.base h vs c e : ObsCore V E S))).elim
        True (fun r => r.trace = [] ∨ r.trace = [Ev.complete])) := by
  refine ⟨?_, ?_, ?_⟩
  · intro V E S o
    cases o with
    | base h vs c e => exact ⟨rfl, rfl, rfl⟩
    | mapped h stage st up => trivial
  · intro V E S o
    cases o <;> rfl
  · intro V E S h vs c e
    rcases h with _ | bh
    · exact Or.inl rfl
    · cases bh with
      | hOf => trivial
      | hFrom => exact Or.inr rfl
      | hThrowError => trivial

/-- C10: `unsubscribe` leaves the completed flag (the stored emission
handler) unchanged; afterwards, subscribing an `of`- or `throwError`-mode
observable that had not completed still dispatches to its handler and
dereferences the now-null value/error pointer (the null-dereference fault
branch), while subscribing a `from`-mode observable in the same scenario
delivers exactly one `complete()` and zero `next` calls rather than being
a no-op. -/
theorem unsubscribe_leaves_handler :
    (∀ (V E S : Type) (o : ObsCore V E S),
      completedB (unsubscribeO o) = completedB o) ∧
    (∀ (V E S : Type) (v : V),
      subscribeO (unsubscribeO (ofO v : ObsCore V E S)) = none) ∧
    (∀ (V E S : Type) (e : E),
      subscribeO (unsubscribeO (throwErrorO e : ObsCore V E S)) = none) ∧
    (∀ (V E S : Type) (s : List V),
      subscribeO (unsubscribeO (fromO s : ObsCore V E S))
        = some ⟨[Ev.complete], [], 0, ObsCore.base none none 0 none⟩) := by
  refine ⟨?_, ?_, ?_, ?_⟩
  · intro V E S o; cases o <;> rfl
  · intro V E S v; rfl
  · intro V E S e; rfl
  · intro V E S s; rfl

end Rxobs
